import Mathlib

/-!
# Verification of the in-enclave tuple engine (NewInternalTypes.h)

Shallow embedding of the row codec, block framing layer (bulk and streaming),
and the aggregation state machine from `src/sql/enclave/Enclave/NewInternalTypes.h`.
Byte buffers are modelled as `List ℕ` (each element a byte value); 32-bit
machine integers are modelled as `ℕ` with explicit `% 2^32` where overflow
matters.  All code runs on a little-endian target, so `uint32_t` fields written
through pointer casts are modelled as 4-byte little-endian sequences.

External collaborators (the ciphers, the task-id parser, the compile-time
constants `ROW_UPPER_BOUND` / `MAX_BLOCK_SIZE`) are parameters: the ciphers are
bundled with the contract stated in the spec's interface section.
-/

namespace OpaqueTuple

/-- Encode a natural as 4 little-endian bytes (the layout of a `uint32_t`
store through a pointer cast on a little-endian target). -/
def u32le (n : ℕ) : List ℕ :=
  [n % 256, n / 256 % 256, n / 65536 % 256, n / 16777216 % 256]

/-- Decode 4 little-endian bytes as a `uint32_t` value. -/
def u32dec (b0 b1 b2 b3 : ℕ) : ℕ :=
  b0 + 256 * b1 + 65536 * b2 + 16777216 * b3

/-- Read a `uint32_t` from the front of a buffer, returning the value and the
rest of the buffer (models `*reinterpret_cast<uint32_t *>(buf); buf += 4`). -/
def readU32 : List ℕ → Option (ℕ × List ℕ)
  | b0 :: b1 :: b2 :: b3 :: rest => some (u32dec b0 b1 b2 b3, rest)
  | _ => none

theorem u32le_length (n : ℕ) : (u32le n).length = 4 := by
  simp [u32le]

theorem readU32_u32le (n : ℕ) (rest : List ℕ) :
    readU32 (u32le n ++ rest) = some (n % 4294967296, rest) := by
  simp only [u32le, List.cons_append, List.nil_append, readU32, u32dec]
  congr 1
  congr 1
  omega

theorem readU32_length {buf rest : List ℕ} {n : ℕ}
    (h : readU32 buf = some (n, rest)) : buf.length = rest.length + 4 := by
  match buf, h with
  | b0 :: b1 :: b2 :: b3 :: r, h =>
    simp only [readU32, Option.some.injEq, Prod.mk.injEq] at h
    simp [← h.2]

/-- One typed, length-prefixed attribute: `[type:u8][len:u32 LE][value:len]`
(source layout, documented at `NewRecord`, lines 50–58). -/
structure Attr where
  type : ℕ
  value : List ℕ
deriving DecidableEq

/-- The byte encoding of one attribute. -/
def attrBytes (a : Attr) : List ℕ :=
  a.type :: u32le a.value.length ++ a.value

/-- A row: `num_cols` then the attributes.  The source keeps the same data as
a flat byte buffer headed by `num_cols` (lines 50–58); this structure is the
parsed view, with `recordWriteBytes` producing the flat buffer. -/
structure NewRecord where
  attrs : List Attr
deriving DecidableEq

/-- `NewRecord::num_cols()` (lines 174–176): the column count. -/
def recNumCols (r : NewRecord) : ℕ := r.attrs.length

/-- Modelled from the spec: `NewRecord::write` (declared line 95, body in the
missing `NewInternalTypes.tcc`) — emits `num_cols:u32 LE` then each attribute
as `[type][len][value]` (spec byte layouts, interface section). -/
def recordWriteBytes (r : NewRecord) : List ℕ :=
  u32le r.attrs.length ++ (r.attrs.map attrBytes).flatten

/-- Parse one attribute from the front of a buffer. -/
def readAttrP : List ℕ → Option (Attr × List ℕ)
  | t :: b0 :: b1 :: b2 :: b3 :: rest =>
    let len := u32dec b0 b1 b2 b3
    if len ≤ rest.length then some (⟨t, rest.take len⟩, rest.drop len) else none
  | _ => none

/-- Parse `n` attributes from the front of a buffer. -/
def readAttrsP : ℕ → List ℕ → Option (List Attr × List ℕ)
  | 0, input => some ([], input)
  | n + 1, input => do
    let (a, r) ← readAttrP input
    let (rest, r') ← readAttrsP n r
    some (a :: rest, r')

/-- Modelled from the spec: `NewRecord::read` (declared line 86, body in the
missing `NewInternalTypes.tcc`) — parses `num_cols` then that many attributes,
returning the parsed row and the remaining buffer. -/
def recordParse (input : List ℕ) : Option (NewRecord × List ℕ) := do
  let (n, r) ← readU32 input
  let (attrList, r') ← readAttrsP n r
  some (⟨attrList⟩, r')

/-- Modelled from the spec: `attrs_equal` (declared line 24, body not under
`src/`) — byte-wise comparison of the `[type][len][value]` triples. -/
def attrsEqual (a b : Attr) : Bool := attrBytes a == attrBytes b

/-- Modelled from the spec: `NewRecord::get_attr` (declared line 117, body in
the missing `.tcc`) — 1-indexed access, failing out of range. -/
def getAttr (r : NewRecord) (i : ℕ) : Option Attr :=
  if 1 ≤ i then r.attrs.get? (i - 1) else none

/-- Modelled from the spec: `NewRecord::get_attr_value` (declared line 131) —
the value bytes of the 1-indexed attribute. -/
def getAttrValue (r : NewRecord) (i : ℕ) : Option (List ℕ) :=
  (getAttr r i).map Attr.value

/-- Reinterpret the first 4 bytes of a value as a `uint32_t` (little endian),
as `*reinterpret_cast<const Type *>(...)` does for `Type = uint32_t`. -/
def u32At (v : List ℕ) : ℕ :=
  u32dec (v.getD 0 0) (v.getD 1 0) (v.getD 2 0) (v.getD 3 0)

/-- Modelled from the spec: `NewRecord::is_dummy` (declared line 170, body in
the missing `.tcc`) — true iff any attribute's type tag is a dummy tag.  The
set of dummy tags is external, so it is a parameter. -/
def recIsDummy (isDummyType : ℕ → Bool) (r : NewRecord) : Bool :=
  r.attrs.any fun a => isDummyType a.type

/-! ## Join records (`NewJoinRecord`, lines 197–329)

A join record wraps a `NewRecord` whose first attribute is the 4-byte integer
table tag.  The operations needed by the claims are all inline in the header:
`set(bool, record)` (lines 246–251), `is_dummy` (297–299), `reset_to_dummy`
(308–310) and `num_cols` (312–314).  `row.clear()` has its body in the missing
`.tcc`; the spec fixes it: it deletes all attributes (`num_cols = 0`). -/

/-- The attribute type tag `INT`; its concrete value is external (`util.h`),
kept as a named constant of the model. -/
def INT_TYPE : ℕ := 1

structure NewJoinRecord where
  row : NewRecord
deriving DecidableEq

/-- `NewJoinRecord::set(bool, const NewRecord*)` (lines 246–251): clear, add
the 4-byte table-id attribute, then append the record's attributes. -/
def joinSet (isPrimary : Bool) (record : NewRecord) : NewJoinRecord :=
  ⟨⟨⟨INT_TYPE, u32le (if isPrimary then 0 else 1)⟩ :: record.attrs⟩⟩

/-- `NewJoinRecord::reset_to_dummy` (lines 308–310): `row.clear()`. -/
def joinResetToDummy (_jr : NewJoinRecord) : NewJoinRecord := ⟨⟨[]⟩⟩

/-- `NewJoinRecord::is_dummy` (lines 297–299): `row.num_cols() == 0`. -/
def joinIsDummy (jr : NewJoinRecord) : Bool := recNumCols jr.row == 0

/-- `NewJoinRecord::num_cols` (lines 312–314): `row.num_cols() - 1` computed
in `uint32_t` arithmetic, hence wrapping at 2^32. -/
def joinNumCols (jr : NewJoinRecord) : ℕ :=
  (recNumCols jr.row + 4294967296 - 1) % 4294967296

/-! ## Group-by state (`GroupBy<Column>`, lines 651–718, and
`GroupBy2<Column1,Column2>`, lines 725–801)

The C++ objects hold a copy of the row plus a raw pointer to the bound
grouping attribute (null when no group is tracked); the pointer is modelled as
an `Option Attr`. -/

structure GroupByState where
  row : NewRecord
  attr : Option Attr
deriving DecidableEq

/-- `GroupBy<Column>` constructor from a record (lines 656–663): copy the row;
bind the attribute if the row is non-empty (out-of-range indices fail the
`check` inside `get_attr`, modelled as `none`). -/
def mkGroupBy (col : ℕ) (r : NewRecord) : Option GroupByState :=
  if recNumCols r ≠ 0 then
    match getAttr r col with
    | some a => some ⟨r, some a⟩
    | none => none
  else some ⟨r, none⟩

/-- `GroupBy::equals` (lines 691–697): false when either side tracks no group,
else byte-equality of the bound attributes. -/
def gEquals (g1 g2 : GroupByState) : Bool :=
  match g1.attr, g2.attr with
  | some a, some b => attrsEqual a b
  | _, _ => false

structure GroupBy2State where
  row : NewRecord
  attrPair : Option (Attr × Attr)
deriving DecidableEq

/-- `GroupBy2<Column1, Column2>` constructor (lines 730–739): both attributes
are bound when the row is non-empty, neither otherwise. -/
def mkGroupBy2 (col1 col2 : ℕ) (r : NewRecord) : Option GroupBy2State :=
  if recNumCols r ≠ 0 then
    match getAttr r col1, getAttr r col2 with
    | some a1, some a2 => some ⟨r, some (a1, a2)⟩
    | _, _ => none
  else some ⟨r, none⟩

/-- `GroupBy2::equals` (lines 771–778). -/
def gEquals2 (g1 g2 : GroupBy2State) : Bool :=
  match g1.attrPair, g2.attrPair with
  | some (a1, a2), some (b1, b2) => attrsEqual a1 b1 && attrsEqual a2 b2
  | _, _ => false

/-! ## Aggregate functions (`Sum`, lines 810–856; `Avg`, lines 861–915)

The aggregators are templates over the aggregate-state type; the model keeps
the state type `σ` and its `zero`/`add` operations as parameters and provides
the `Sum<Column, uint32_t>` instantiation used by concrete instances.
`add` can fail because `get_attr_value` fails on an out-of-range column. -/

/-- `Sum<Column, uint32_t>::add(NewRecord*)` (lines 826–828):
`sum += *(const uint32_t *)record->get_attr_value(Column)`, in `uint32_t`
arithmetic. -/
def sumAddU32 (col : ℕ) (s : ℕ) (r : NewRecord) : Option ℕ :=
  (getAttrValue r col).map fun v => (s + u32At v) % 4294967296

/-! ## Aggregators (`Aggregator1`, lines 397–522; `Aggregator2`, lines 525–645)

Generic over the group type `γ` (instantiated with `GroupByState` or
`GroupBy2State`) and the aggregate-state types.  The `check` macro aborts the
enclave call on failure; failure is modelled as `none`. -/

structure Aggregator1M (γ σ : Type) where
  numDistinct : ℕ
  offset : ℕ
  g : γ
  a1 : σ
deriving DecidableEq

structure Aggregator2M (γ σ1 σ2 : Type) where
  numDistinct : ℕ
  offset : ℕ
  g : γ
  a1 : σ1
  a2 : σ2
deriving DecidableEq

/-- `Aggregator1::aggregate(NewRecord*)` (lines 413–423): build the record's
group; if it equals the current group, add into the aggregate state; else
increment `num_distinct` (a `uint32_t`), replace the group, zero the aggregate
state and add the record into it. -/
def agg1Record {γ σ : Type} (mkG : NewRecord → Option γ) (eqG : γ → γ → Bool)
    (zeroS : σ) (addS : σ → NewRecord → Option σ)
    (agg : Aggregator1M γ σ) (r : NewRecord) : Option (Aggregator1M γ σ) := do
  let g2 ← mkG r
  if eqG agg.g g2 then
    let s ← addS agg.a1 r
    some { agg with a1 := s }
  else
    let s ← addS zeroS r
    some ⟨(agg.numDistinct + 1) % 4294967296, agg.offset, g2, s⟩

/-- `Aggregator2::aggregate(NewRecord*)` (lines 538–551). -/
def agg2Record {γ σ1 σ2 : Type} (mkG : NewRecord → Option γ) (eqG : γ → γ → Bool)
    (zeroS1 : σ1) (addS1 : σ1 → NewRecord → Option σ1)
    (zeroS2 : σ2) (addS2 : σ2 → NewRecord → Option σ2)
    (agg : Aggregator2M γ σ1 σ2) (r : NewRecord) : Option (Aggregator2M γ σ1 σ2) := do
  let g2 ← mkG r
  if eqG agg.g g2 then
    let s1 ← addS1 agg.a1 r
    let s2 ← addS2 agg.a2 r
    some { agg with a1 := s1, a2 := s2 }
  else
    let s1 ← addS1 zeroS1 r
    let s2 ← addS2 zeroS2 r
    some ⟨(agg.numDistinct + 1) % 4294967296, agg.offset, g2, s1, s2⟩

/-- `Aggregator1::aggregate(Aggregator1*)` (lines 429–433): the `check` of
`grouping_attrs_equal(other)` aborts on mismatch (`none`); on success the
other's partial state is added into this one's. -/
def agg1Combine {γ σ : Type} (eqG : γ → γ → Bool) (addC : σ → σ → σ)
    (agg other : Aggregator1M γ σ) : Option (Aggregator1M γ σ) :=
  if eqG agg.g other.g then some { agg with a1 := addC agg.a1 other.a1 } else none

/-- `Aggregator2::aggregate(Aggregator2*)` (lines 553–558). -/
def agg2Combine {γ σ1 σ2 : Type} (eqG : γ → γ → Bool)
    (addC1 : σ1 → σ1 → σ1) (addC2 : σ2 → σ2 → σ2)
    (agg other : Aggregator2M γ σ1 σ2) : Option (Aggregator2M γ σ1 σ2) :=
  if eqG agg.g other.g then
    some { agg with a1 := addC1 agg.a1 other.a1, a2 := addC2 agg.a2 other.a2 }
  else none

/-- `Aggregator1::grouping_attrs_equal(NewRecord*)` (lines 500–507): a dummy
record belongs to no group; otherwise compare with the record's group. -/
def agg1GroupingAttrsEqualRec {γ σ : Type} (isDummyType : ℕ → Bool)
    (mkG : NewRecord → Option γ) (eqG : γ → γ → Bool)
    (agg : Aggregator1M γ σ) (r : NewRecord) : Option Bool :=
  if recIsDummy isDummyType r then some false
  else (mkG r).map fun g2 => eqG agg.g g2

/-- `Aggregator2::grouping_attrs_equal(NewRecord*)` (lines 620–627). -/
def agg2GroupingAttrsEqualRec {γ σ1 σ2 : Type} (isDummyType : ℕ → Bool)
    (mkG : NewRecord → Option γ) (eqG : γ → γ → Bool)
    (agg : Aggregator2M γ σ1 σ2) (r : NewRecord) : Option Bool :=
  if recIsDummy isDummyType r then some false
  else (mkG r).map fun g2 => eqG agg.g g2

/-! ## The cipher contract (spec, interface section)

The concrete primitives `encrypt`, `decrypt`, `encrypt_with_aad` and
`enc_size` are external; the spec fixes only their contract: symmetric
authenticated encryption, `enc_size` a fixed function of the plaintext
length, and associated data that must match for decryption to succeed. -/

structure BlockCipher where
  encSize : ℕ → ℕ
  encrypt : List ℕ → List ℕ
  decrypt : List ℕ → Option (List ℕ)
  encryptWithAad : List ℕ → List ℕ → List ℕ
  decryptWithAad : List ℕ → List ℕ → Option (List ℕ)
  encrypt_len : ∀ pt, (encrypt pt).length = encSize pt.length
  decrypt_encrypt : ∀ pt, decrypt (encrypt pt) = some pt
  aad_len : ∀ aad pt, aad.length = 16 → (encryptWithAad aad pt).length = encSize pt.length
  aad_roundtrip : ∀ aad pt, decryptWithAad aad (encryptWithAad aad pt) = some pt
  aad_tamper : ∀ aad aad' pt, aad'.length = aad.length → aad' ≠ aad →
      decryptWithAad aad' (encryptWithAad aad pt) = none

/-- A concrete cipher satisfying the contract, used to evaluate the models on
concrete inputs: `encrypt` prepends a fixed 16-byte marker, `encrypt_with_aad`
prepends the associated data itself. -/
def sampleCipher : BlockCipher where
  encSize n := n + 16
  encrypt pt := List.replicate 16 200 ++ pt
  decrypt ct := if ct.take 16 = List.replicate 16 200 ∧ 16 ≤ ct.length
                then some (ct.drop 16) else none
  encryptWithAad aad pt := aad ++ pt
  decryptWithAad aad ct := if ct.take aad.length = aad ∧ aad.length ≤ ct.length
                           then some (ct.drop aad.length) else none
  encrypt_len pt := by simp
  decrypt_encrypt pt := by
    simp [List.take_append_of_le_length, List.drop_append_of_le_length]
  aad_len aad pt h := by simp [h]; omega
  aad_roundtrip aad pt := by
    simp [List.take_append_of_le_length, List.drop_append_of_le_length]
  aad_tamper aad aad' pt hlen hne := by
    have ht : (aad ++ pt).take aad'.length = aad := by
      rw [hlen]
      exact List.take_left aad pt
    have hno : ¬((aad ++ pt).take aad'.length = aad' ∧ aad'.length ≤ (aad ++ pt).length) := by
      rintro ⟨h1, -⟩
      rw [ht] at h1
      exact hne h1.symm
    simp only []
    rw [if_neg hno]

/-! ## Bulk block writer (`RowWriter`, lines 1071–1163)

Rows are appended (at their actual encoded length) into the plaintext block
buffer; padded accounting accrues `row_upper_bound` bytes per row.
`finish_block` (lines 1124–1136) emits the 16-byte header
`(enc_size, num_rows, row_upper_bound, task_id)` and then
`encrypt_with_aad(block_start, block_padded_len, out, header, 16)`.
The output buffer is modelled as the concatenation of the emitted blocks; the
per-block record also keeps the header, ciphertext and plaintext for the
theorems.  The block buffer comes from `malloc`, so the padding bytes past the
written rows are unspecified; they are modelled as zeros. -/

structure RWBlock where
  header : List ℕ
  ct : List ℕ
  pt : List ℕ
  numRows : ℕ
  paddedLen : ℕ
  rub : ℕ
  taskId : ℕ
deriving DecidableEq

structure RWState where
  blocks : List RWBlock
  blockBytes : List ℕ
  blockNumRows : ℕ
  blockPaddedLen : ℕ
  rub : ℕ
  taskId : ℕ
deriving DecidableEq

/-- `RowWriter::RowWriter(buf, row_upper_bound)` (lines 1073–1079), with
`set_self_task_id` (lines 1087–1089) applied. -/
def rwInit (rub0 taskId : ℕ) : RWState := ⟨[], [], 0, 0, rub0, taskId⟩

/-- The plaintext passed to the cipher by `finish_block`: exactly
`block_padded_len` bytes starting at `block_start` (uninitialized tail
modelled as zeros). -/
def rwPlain (st : RWState) : List ℕ :=
  st.blockBytes.take st.blockPaddedLen ++
    List.replicate (st.blockPaddedLen - st.blockBytes.length) 0

/-- `RowWriter::finish_block` (lines 1124–1136). -/
def rwFinishBlock (c : BlockCipher) (st : RWState) : RWState :=
  let header := u32le (c.encSize st.blockPaddedLen) ++ u32le st.blockNumRows ++
    u32le st.rub ++ u32le st.taskId
  { st with
    blocks := st.blocks ++
      [⟨header, c.encryptWithAad header (rwPlain st), rwPlain st,
        st.blockNumRows, st.blockPaddedLen, st.rub, st.taskId⟩],
    blockBytes := [], blockNumRows := 0, blockPaddedLen := 0 }

/-- `RowWriter::write(NewRecord*)` (lines 1091–1103).  `RUBC` is the global
`ROW_UPPER_BOUND` constant, `MAXB` is `MAX_BLOCK_SIZE`, and `rubOf` stands for
`NewRecord::row_upper_bound()` (body in the missing `.tcc`; by its header
documentation an upper bound on the write length for the row's schema).  The
`check` on the written length aborts on failure (`none`). -/
def rwWrite (c : BlockCipher) (rubOf : NewRecord → ℕ) (RUBC MAXB : ℕ)
    (st : RWState) (r : NewRecord) : Option RWState :=
  let st := if st.blockPaddedLen + RUBC > MAXB then rwFinishBlock c st else st
  let enc := recordWriteBytes r
  if enc.length ≤ (if st.rub = 0 then RUBC else st.rub) then
    let rub' := if st.rub = 0 then rubOf r else st.rub
    some { st with blockBytes := st.blockBytes ++ enc,
                   blockNumRows := st.blockNumRows + 1,
                   rub := rub', blockPaddedLen := st.blockPaddedLen + rub' }
  else none

/-- Write a sequence of rows and `close()` (lines 1138–1140). -/
def runRowWriter (c : BlockCipher) (rubOf : NewRecord → ℕ) (RUBC MAXB : ℕ)
    (rub0 taskId : ℕ) (rows : List NewRecord) : Option RWState := do
  let st ← rows.foldlM (rwWrite c rubOf RUBC MAXB) (rwInit rub0 taskId)
  some (rwFinishBlock c st)

/-- The bytes the writer leaves in the output buffer: each finished block is
its 16-byte header followed by the ciphertext. -/
def rwOut (st : RWState) : List ℕ :=
  (st.blocks.map fun b => b.header ++ b.ct).flatten

/-! ## Bulk block reader (`RowReader`, lines 923–1008)

`read_encrypted_block` (lines 976–991) loops: it reads `enc_size` and
`num_rows`, advances 4 bytes past `row_upper_bound`, immediately calls
`decrypt` on the next `enc_size` bytes, and repeats until `num_rows > 0`.
Note that it consumes only 12 bytes of header per block — it neither reads a
`task_id` field nor ever calls `add_parent` (lines 969–974), so the verify
sink passed to the constructor is never updated.  Reading past the end of the
buffer and a failing `decrypt` are modelled as `none`. -/

/-- One iteration of the `while (true)` loop consumes the 12 bytes of header
the reader looks at, hands the next `enc_size` bytes to `decrypt`, and repeats
on a zero-row block.  Every iteration consumes at least 12 bytes, so running
the loop with `buf.length + 1` units of fuel is exact (fuel-irrelevance is
proved below). -/
def rrBlockLoopF (c : BlockCipher) : ℕ → List ℕ → Option (List ℕ × ℕ × List ℕ)
  | 0, _ => none
  | fuel + 1, buf =>
    match readU32 buf with
    | none => none
    | some (e, r1) =>
      match readU32 r1 with
      | none => none
      | some (n, r2) =>
        match readU32 r2 with
        | none => none
        | some (_u, r3) =>
          if e ≤ r3.length then
            match c.decrypt (r3.take e) with
            | none => none
            | some pt =>
              if n > 0 then some (pt, n, r3.drop e)
              else rrBlockLoopF c fuel (r3.drop e)
          else none

/-- `RowReader::read_encrypted_block` (lines 976–991): the loop above with
sufficient fuel. -/
def rrBlockLoop (c : BlockCipher) (buf : List ℕ) : Option (List ℕ × ℕ × List ℕ) :=
  rrBlockLoopF c (buf.length + 1) buf

theorem rrBlockLoopF_fuel (c : BlockCipher) :
    ∀ (f g : ℕ) (buf : List ℕ), buf.length < f → buf.length < g →
      rrBlockLoopF c f buf = rrBlockLoopF c g buf := by
  intro f
  induction f with
  | zero => intro g buf hf; omega
  | succ f ih =>
    intro g buf hf hg
    match g, hg with
    | g + 1, hg =>
      cases h1 : readU32 buf with
      | none => simp only [rrBlockLoopF, h1]
      | some p1 =>
        obtain ⟨e, r1⟩ := p1
        cases h2 : readU32 r1 with
        | none => simp only [rrBlockLoopF, h1, h2]
        | some p2 =>
          obtain ⟨n, r2⟩ := p2
          cases h3 : readU32 r2 with
          | none => simp only [rrBlockLoopF, h1, h2, h3]
          | some p3 =>
            obtain ⟨u, r3⟩ := p3
            have l1 := readU32_length h1
            have l2 := readU32_length h2
            have l3 := readU32_length h3
            simp only [rrBlockLoopF, h1, h2, h3]
            by_cases he : e ≤ r3.length
            · simp only [if_pos he]
              cases hd : c.decrypt (r3.take e) with
              | none => rfl
              | some pt =>
                by_cases hn : n > 0
                · simp only [hd, if_pos hn]
                · simp only [hd, if_neg hn]
                  exact ih g (r3.drop e)
                    (by simp only [List.length_drop]; omega)
                    (by simp only [List.length_drop]; omega)
            · simp only [if_neg he]

structure RRState where
  buf : List ℕ
  blockPlain : List ℕ
  blockNumRows : ℕ
  blockRowsRead : ℕ
  verify : List ℕ
deriving DecidableEq

/-- `RowReader::RowReader` (lines 925–928): the constructor immediately calls
`read_encrypted_block`; the verify sink starts empty and — since `add_parent`
is never invoked — stays as constructed. -/
def rrInit (c : BlockCipher) (buf : List ℕ) : Option RRState :=
  (rrBlockLoop c buf).map fun pr => ⟨pr.2.2, pr.1, pr.2.1, 0, []⟩

/-- `RowReader::read(NewRecord*)` (lines 938–942) with
`maybe_advance_block` (lines 993–997): advance to the next block when the
current one is exhausted, then parse one row at the current position. -/
def rrRead (c : BlockCipher) (st : RRState) : Option (NewRecord × RRState) := do
  let st' ←
    if st.blockRowsRead ≥ st.blockNumRows then
      (rrBlockLoop c st.buf).map fun pr =>
        RRState.mk pr.2.2 pr.1 pr.2.1 0 st.verify
    else some st
  let (rec, rem) ← recordParse st'.blockPlain
  some (rec, { st' with blockPlain := rem, blockRowsRead := st'.blockRowsRead + 1 })

/-- Read `n` consecutive rows. -/
def rrReadN (c : BlockCipher) : ℕ → RRState → Option (List NewRecord × RRState)
  | 0, st => some ([], st)
  | n + 1, st => do
    let (r, st') ← rrRead c st
    let (rest, st'') ← rrReadN c n st'
    some (r :: rest, st'')

/-- End-to-end pipeline: write `rows` through a `RowWriter`, then construct a
`RowReader` over the resulting buffer and read `rows.length` rows back. -/
def rowRecords (c : BlockCipher) (rubOf : NewRecord → ℕ) (RUBC MAXB : ℕ)
    (rub0 taskId : ℕ) (rows : List NewRecord) : Option (List NewRecord) := do
  let st ← runRowWriter c rubOf RUBC MAXB rub0 taskId rows
  let rst ← rrInit c (rwOut st)
  let (recs, _) ← rrReadN c rows.length rst
  some recs

/-! ## The streaming cipher contract (spec, interface section)

`StreamCipher` encrypts bytes incrementally into a pinned output position;
`bytes_written()` after `finish()` is a fixed function of the total plaintext
length.  `StreamDecipher` decrypts incrementally from a ciphertext region. -/

structure StreamCipherModel where
  sencSize : ℕ → ℕ
  sencrypt : List ℕ → List ℕ
  sdecrypt : List ℕ → Option (List ℕ)
  sencrypt_len : ∀ pt, (sencrypt pt).length = sencSize pt.length
  sdecrypt_sencrypt : ∀ pt, sdecrypt (sencrypt pt) = some pt

/-- A concrete streaming cipher for concrete evaluations: a 4-byte marker
followed by the plaintext. -/
def sampleStream : StreamCipherModel where
  sencSize n := n + 4
  sencrypt pt := [9, 9, 9, 9] ++ pt
  sdecrypt ct := if ct.take 4 = [9, 9, 9, 9] then some (ct.drop 4) else none
  sencrypt_len pt := by simp
  sdecrypt_sencrypt pt := by simp

/-! ## Streaming block writer (`StreamRowWriter`, lines 1356–1459)

The constructor (lines 1358–1366) pins the stream cipher at
`buf_start + 12`.  `finish_block` (lines 1419–1440) writes the 16-byte header
`(bytes_written, block_num_rows, ROW_UPPER_BOUND, task_id_parser(opcode, part))`
at `buf_pos`, advances past the header and `bytes_written` ciphertext bytes,
and resets the cipher to `buf_pos + 12`.  `maybe_finish_block` (lines
1442–1446) triggers only when `block_len > MAX_BLOCK_SIZE`.

Positions are byte offsets from `buf_start`.  Each finished block is recorded
with its header fields, its header start and the position at which the cipher
wrote this block's ciphertext.  `Record::write(StreamRowWriter*)` (body in the
missing `.tcc`) streams the row's plaintext encoding through `write_bytes`; it
is modelled (from the spec's streaming section) as appending
`recordWriteBytes` to the cipher's pending plaintext. -/

structure SWBlock where
  headerStart : ℕ
  encSizeField : ℕ
  numRows : ℕ
  rubField : ℕ
  taskId : ℕ
  ctStart : ℕ
deriving DecidableEq

structure SWState where
  bufPos : ℕ
  cipherStart : ℕ
  cipherPt : List ℕ
  blockNumRows : ℕ
  blockLen : ℕ
  opcode : ℕ
  part : ℕ
  blocks : List SWBlock
deriving DecidableEq

/-- `StreamRowWriter::StreamRowWriter(buf)` (lines 1358–1366). -/
def swInit : SWState := ⟨0, 12, [], 0, 0, 0, 0, []⟩

/-- `StreamRowWriter::set_opcode` (lines 1372–1374). -/
def swSetOpcode (st : SWState) (op : ℕ) : SWState := { st with opcode := op }

/-- `StreamRowWriter::set_part_index` (lines 1376–1378). -/
def swSetPart (st : SWState) (p : ℕ) : SWState := { st with part := p }

/-- `StreamRowWriter::finish_block` (lines 1419–1440); `tparse` stands for the
external task-id parser from `EncryptedDAG.h` (not under `src/`). -/
def swFinishBlock (sc : StreamCipherModel) (tparse : ℕ → ℕ → ℕ) (RUBC : ℕ)
    (st : SWState) : SWState :=
  let w := sc.sencSize st.cipherPt.length
  { st with
    blocks := st.blocks ++
      [⟨st.bufPos, w, st.blockNumRows, RUBC, tparse st.opcode st.part, st.cipherStart⟩],
    blockNumRows := 0, blockLen := 0,
    bufPos := st.bufPos + 16 + w,
    cipherStart := st.bufPos + 16 + w + 12,
    cipherPt := [] }

/-- `StreamRowWriter::write(NewRecord*)` (lines 1380–1386) with
`maybe_finish_block` (lines 1442–1446). -/
def swWrite (sc : StreamCipherModel) (tparse : ℕ → ℕ → ℕ) (RUBC MAXB : ℕ)
    (st : SWState) (r : NewRecord) : SWState :=
  let st := if st.blockLen > MAXB then swFinishBlock sc tparse RUBC st else st
  { st with cipherPt := st.cipherPt ++ recordWriteBytes r,
            blockNumRows := st.blockNumRows + 1 }

/-- `StreamRowWriter::close` (lines 1409–1411): finish the final block. -/
def swClose (sc : StreamCipherModel) (tparse : ℕ → ℕ → ℕ) (RUBC : ℕ)
    (st : SWState) : SWState :=
  swFinishBlock sc tparse RUBC st

/-! ## Streaming block reader (`StreamRowReader`, lines 1253–1350)

`read_encrypted_block` (lines 1311–1332) reads the full 16-byte header, adds
`task_id` to the verify set, points the stream decipher at the next
`enc_size` bytes and advances past them.  Unlike the bulk reader it contains
no loop: it always consumes exactly one block, whatever its `num_rows`.
`maybe_advance_block` (lines 1334–1338) likewise advances at most one block
per `read`. -/

structure SRState where
  buf : List ℕ
  blockPlain : List ℕ
  blockNumRows : ℕ
  blockRowsRead : ℕ
  verify : List ℕ
  curBlockNum : ℕ
deriving DecidableEq

/-- `StreamRowReader::read_encrypted_block` (lines 1311–1332). -/
def srReadBlock (sc : StreamCipherModel) (st : SRState) : Option SRState := do
  let (e, r1) ← readU32 st.buf
  let (n, r2) ← readU32 r1
  let (_u, r3) ← readU32 r2
  let (t, r4) ← readU32 r3
  if e ≤ r4.length then
    match sc.sdecrypt (r4.take e) with
    | none => none
    | some pt =>
      some ⟨r4.drop e, pt, n, 0, st.verify ++ [t], st.curBlockNum + 1⟩
  else none

/-- `StreamRowReader::StreamRowReader(buf)` (lines 1255–1259): the constructor
immediately reads the first block. -/
def srInit (sc : StreamCipherModel) (buf : List ℕ) : Option SRState :=
  srReadBlock sc ⟨buf, [], 0, 0, [], 0⟩

/-- `StreamRowReader::read(NewRecord*)` (lines 1268–1272) with
`maybe_advance_block`: advance exactly one block when the current one is
exhausted, then stream-parse one row.  `Record::read(StreamRowReader*)` (body
in the missing `.tcc`) streams the row's fields through `read_bytes`; it is
modelled (from the spec's streaming section) as parsing from the decrypted
stream. -/
def srRead (sc : StreamCipherModel) (st : SRState) : Option (NewRecord × SRState) := do
  let st' ←
    if st.blockRowsRead ≥ st.blockNumRows then srReadBlock sc st else some st
  let (rec, rem) ← recordParse st'.blockPlain
  some (rec, { st' with blockPlain := rem, blockRowsRead := st'.blockRowsRead + 1 })

/-- Read `n` consecutive rows from a stream reader. -/
def srReadN (sc : StreamCipherModel) : ℕ → SRState → Option (List NewRecord × SRState)
  | 0, st => some ([], st)
  | n + 1, st => do
    let (r, st') ← srRead sc st
    let (rest, st'') ← srReadN sc n st'
    some (r :: rest, st'')

/-- Construct a stream reader over a buffer and read `n` rows. -/
def srRecords (sc : StreamCipherModel) (n : ℕ) (buf : List ℕ) :
    Option (List NewRecord) := do
  let st ← srInit sc buf
  let (recs, _) ← srReadN sc n st
  some recs

/-! ## Concrete instances used by the closed theorems and witnesses -/

/-- A one-column integer row (`INT 42`); its plaintext encoding is 13 bytes. -/
def cRow1 : NewRecord := ⟨[⟨INT_TYPE, [42, 0, 0, 0]⟩]⟩

/-- A one-column integer row (`INT 43`). -/
def cRow2 : NewRecord := ⟨[⟨INT_TYPE, [43, 0, 0, 0]⟩]⟩

/-- A two-column integer row: group column `5`, value column `3`. -/
def cRowG : NewRecord := ⟨[⟨INT_TYPE, [5, 0, 0, 0]⟩, ⟨INT_TYPE, [3, 0, 0, 0]⟩]⟩

/-- A sample dummy type tag: in the source the dummy tags live in `util.h`
(not under `src/`); only their disjointness from the live tags matters. -/
def DUMMY_INT_TYPE : ℕ := 100

/-- A dummy two-column row: both attributes carry the dummy tag (as
`mark_dummy` leaves them), group bytes `5`, value bytes `7`. -/
def cRowDummy : NewRecord := ⟨[⟨DUMMY_INT_TYPE, [5, 0, 0, 0]⟩, ⟨DUMMY_INT_TYPE, [7, 0, 0, 0]⟩]⟩

/-- An `Aggregator1<GroupBy<1>, Sum<2, uint32_t>>` that has seen one group
(`INT 5`) and accumulated the sum `3`. -/
def cAgg5 : Aggregator1M GroupByState ℕ :=
  ⟨1, 0, ⟨cRowG, some ⟨INT_TYPE, [5, 0, 0, 0]⟩⟩, 3⟩

/-- A freshly constructed (empty) `Aggregator1<GroupBy<1>, Sum<2, uint32_t>>`. -/
def cAggEmpty : Aggregator1M GroupByState ℕ := ⟨0, 0, ⟨⟨[]⟩, none⟩, 0⟩

/-- A sample stand-in for the external task-id parser (its formula lives in
`EncryptedDAG.h`, outside `src/`; the framing claims only need it applied). -/
def sampleTaskIdParse : ℕ → ℕ → ℕ := fun op part => 4096 * op + part

/-- A 16-byte block header as laid out by the writers. -/
def mkHeader (e n u t : ℕ) : List ℕ := u32le e ++ u32le n ++ u32le u ++ u32le t

/-- A three-block stream buffer in the stream reader's own framing: a
one-row block holding `cRow1`, a zero-row block, then a one-row block holding
`cRow2`. -/
def bufWithZeroRowBlock : List ℕ :=
  mkHeader 17 1 32 5 ++ sampleStream.sencrypt (recordWriteBytes cRow1) ++
  mkHeader 4 0 32 6 ++ sampleStream.sencrypt [] ++
  mkHeader 17 1 32 7 ++ sampleStream.sencrypt (recordWriteBytes cRow2)

/-- A concrete `StreamRowWriter` run: opcode 3, partition 5, one row, close. -/
def swRunC2 : SWState :=
  swClose sampleStream sampleTaskIdParse 32
    (swWrite sampleStream sampleTaskIdParse 32 1000
      (swSetPart (swSetOpcode swInit 3) 5) cRow1)

/-- A concrete `RowWriter` run: `row_upper_bound` 16, task id 7, one row. -/
def c4St : RWState :=
  (runRowWriter sampleCipher (fun _ => 16) 32 1000 16 7 [cRow1]).getD
    (rwInit 0 0)

/-- Writing a batch of rows through a `StreamRowWriter` whose current
`block_len` is zero leaves `block_len` zero, emits no block, and counts every
row into the current block. -/
theorem swWrites_state (sc : StreamCipherModel) (tparse : ℕ → ℕ → ℕ)
    (RUBC MAXB : ℕ) :
    ∀ (rows : List NewRecord) (st : SWState), st.blockLen = 0 →
      (rows.foldl (swWrite sc tparse RUBC MAXB) st).blockLen = 0 ∧
      (rows.foldl (swWrite sc tparse RUBC MAXB) st).blocks = st.blocks ∧
      (rows.foldl (swWrite sc tparse RUBC MAXB) st).blockNumRows
        = st.blockNumRows + rows.length := by
  intro rows
  induction rows with
  | nil => intro st h; simp [h]
  | cons r rs ih =>
    intro st h
    have hstep : swWrite sc tparse RUBC MAXB st r
        = { st with cipherPt := st.cipherPt ++ recordWriteBytes r,
                    blockNumRows := st.blockNumRows + 1 } := by
      simp [swWrite, h]
    have := ih (swWrite sc tparse RUBC MAXB st r) (by rw [hstep]; exact h)
    simp only [List.foldl_cons]
    rw [hstep] at this ⊢
    refine ⟨this.1, this.2.1, ?_⟩
    rw [this.2.2]
    simp
    omega

/-- C9: In `StreamRowWriter`, `block_len` is zero after construction and
is never increased by any `write`, so the guard `block_len > MAX_BLOCK_SIZE`
in `maybe_finish_block` never fires: no block is finished before `close()`,
and the single block emitted by `close()` contains every row written —
whatever `MAX_BLOCK_SIZE` is. -/
theorem streamwriter_single_block (sc : StreamCipherModel)
    (tparse : ℕ → ℕ → ℕ) (RUBC MAXB op part : ℕ) (rows : List NewRecord) :
    (rows.foldl (swWrite sc tparse RUBC MAXB)
        (swSetPart (swSetOpcode swInit op) part)).blockLen = 0 ∧
    (rows.foldl (swWrite sc tparse RUBC MAXB)
        (swSetPart (swSetOpcode swInit op) part)).blocks = [] ∧
    (swClose sc tparse RUBC
        (rows.foldl (swWrite sc tparse RUBC MAXB)
          (swSetPart (swSetOpcode swInit op) part))).blocks.map SWBlock.numRows
      = [rows.length] := by
  have h0 : (swSetPart (swSetOpcode swInit op) part).blockLen = 0 := by
    simp [swSetPart, swSetOpcode, swInit]
  have h := swWrites_state sc tparse RUBC MAXB rows (swSetPart (swSetOpcode swInit op) part) h0
  refine ⟨h.1, ?_, ?_⟩
  · rw [h.2.1]
    simp [swSetPart, swSetOpcode, swInit]
  · simp only [swClose, swFinishBlock]
    rw [h.2.1, h.2.2]
    simp [swSetPart, swSetOpcode, swInit]

/-- C10: `NewJoinRecord::reset_to_dummy()` clears the wrapped row to 0
columns; afterwards `is_dummy()` is true but `num_cols()` is the wrapped
`uint32_t` value `0 - 1 = 4294967295`, not 0.  `num_cols()` reports the
wrapped record's column count when a record has been installed by
`set(is_primary, record)` (so the underlying row is non-empty). -/
theorem joinrecord_reset_dummy_numcols (jr : NewJoinRecord) :
    joinIsDummy (joinResetToDummy jr) = true ∧
    joinNumCols (joinResetToDummy jr) = 4294967295 ∧
    (4294967295 : ℕ) ≠ 0 ∧
    ∀ (p : Bool) (rec : NewRecord), recNumCols rec < 4294967296 →
      joinNumCols (joinSet p rec) = recNumCols rec := by
  refine ⟨rfl, by simp [joinNumCols, joinResetToDummy, recNumCols], by decide, ?_⟩
  intro p rec h
  simp only [joinNumCols, joinSet, recNumCols, List.length_cons] at h ⊢
  omega

/-- Witness for `joinrecord_reset_dummy_numcols` at a concrete join record. -/
theorem joinrecord_reset_dummy_numcols_witness :
    joinIsDummy (joinResetToDummy (joinSet true cRowG)) = true ∧
    joinNumCols (joinSet true cRowG) = 2 :=
  ⟨(joinrecord_reset_dummy_numcols (joinSet true cRowG)).1,
   ((joinrecord_reset_dummy_numcols (joinSet true cRowG)).2.2.2 true cRowG
     (by decide)).trans (by decide)⟩

/-- C7: Combining two aggregators with `aggregate(other)` fails (the
`check` of `grouping_attrs_equal(other)` aborts) whenever the group rows
differ; when they agree it succeeds, adds each of the other's partial states
into the corresponding state, and leaves `num_distinct` and the group row
unchanged — for both `Aggregator1` and `Aggregator2`. -/
theorem aggregator_combine_requires_group_match :
    (∀ (γ σ : Type) (eqG : γ → γ → Bool) (addC : σ → σ → σ)
       (agg other : Aggregator1M γ σ),
       (eqG agg.g other.g = false → agg1Combine eqG addC agg other = none) ∧
       (eqG agg.g other.g = true → agg1Combine eqG addC agg other =
         some ⟨agg.numDistinct, agg.offset, agg.g, addC agg.a1 other.a1⟩)) ∧
    (∀ (γ σ1 σ2 : Type) (eqG : γ → γ → Bool)
       (addC1 : σ1 → σ1 → σ1) (addC2 : σ2 → σ2 → σ2)
       (agg other : Aggregator2M γ σ1 σ2),
       (eqG agg.g other.g = false → agg2Combine eqG addC1 addC2 agg other = none) ∧
       (eqG agg.g other.g = true → agg2Combine eqG addC1 addC2 agg other =
         some ⟨agg.numDistinct, agg.offset, agg.g, addC1 agg.a1 other.a1,
               addC2 agg.a2 other.a2⟩)) := by
  constructor
  · intro γ σ eqG addC agg other
    constructor
    · intro h; simp [agg1Combine, h]
    · intro h; simp [agg1Combine, h]
  · intro γ σ1 σ2 eqG addC1 addC2 agg other
    constructor
    · intro h; simp [agg2Combine, h]
    · intro h; simp [agg2Combine, h]

/-- Witness for `aggregator_combine_requires_group_match`: combining two
concrete `Sum` aggregators over the same group adds the partial sums;
combining with a different group fails. -/
theorem aggregator_combine_requires_group_match_witness :
    agg1Combine gEquals (fun a b => (a + b) % 4294967296) cAgg5
        ⟨4, 9, ⟨cRowG, some ⟨INT_TYPE, [5, 0, 0, 0]⟩⟩, 10⟩
      = some ⟨1, 0, ⟨cRowG, some ⟨INT_TYPE, [5, 0, 0, 0]⟩⟩, 13⟩ ∧
    agg1Combine gEquals (fun a b => (a + b) % 4294967296) cAgg5
        ⟨4, 9, ⟨cRowG, some ⟨INT_TYPE, [9, 0, 0, 0]⟩⟩, 10⟩
      = none :=
  ⟨((aggregator_combine_requires_group_match.1 GroupByState ℕ gEquals
      (fun a b => (a + b) % 4294967296) cAgg5
      ⟨4, 9, ⟨cRowG, some ⟨INT_TYPE, [5, 0, 0, 0]⟩⟩, 10⟩).2 (by decide)).trans
      (by decide),
   (aggregator_combine_requires_group_match.1 GroupByState ℕ gEquals
      (fun a b => (a + b) % 4294967296) cAgg5
      ⟨4, 9, ⟨cRowG, some ⟨INT_TYPE, [9, 0, 0, 0]⟩⟩, 10⟩).1 (by decide)⟩

/-- C5 counterexample: `aggregate(NewRecord*)` contains no dummy check:
feeding the dummy record `cRowDummy` to a concrete
`Aggregator1<GroupBy<1>, Sum<2, uint32_t>>` is *not* a no-op — the dummy's
group attribute (tagged with a dummy type) differs byte-wise from the current
group, so `num_distinct` is incremented from 1 to 2, the group row is
replaced, and the dummy's value is added into the zeroed sum. -/
theorem aggregate_dummy_not_noop_counterexample :
    recIsDummy (fun t => t == DUMMY_INT_TYPE) cRowDummy = true ∧
    agg1Record (mkGroupBy 1) gEquals 0 (sumAddU32 2) cAgg5 cRowDummy
      = some ⟨2, 0, ⟨cRowDummy, some ⟨DUMMY_INT_TYPE, [5, 0, 0, 0]⟩⟩, 7⟩ ∧
    (2 : ℕ) ≠ cAgg5.numDistinct := by
  refine ⟨by decide, by decide, by decide⟩

/-- C5 amended: `aggregate(record)` does not special-case dummy
records: a dummy record passes through the same group-comparison path as any
record, so when its grouping state differs from the current group it
increments `num_distinct` (as a `uint32_t`), replaces the group and re-zeroes
the aggregate states before adding the record in.  Only
`grouping_attrs_equal(record)` treats a dummy record specially, returning
false — for both `Aggregator1` and `Aggregator2`. -/
theorem aggregate_dummy_no_special_case :
    (∀ (γ σ : Type) (isD : ℕ → Bool) (mkG : NewRecord → Option γ)
       (eqG : γ → γ → Bool) (agg : Aggregator1M γ σ) (r : NewRecord),
       recIsDummy isD r = true →
       agg1GroupingAttrsEqualRec isD mkG eqG agg r = some false) ∧
    (∀ (γ σ1 σ2 : Type) (isD : ℕ → Bool) (mkG : NewRecord → Option γ)
       (eqG : γ → γ → Bool) (agg : Aggregator2M γ σ1 σ2) (r : NewRecord),
       recIsDummy isD r = true →
       agg2GroupingAttrsEqualRec isD mkG eqG agg r = some false) ∧
    (∀ (γ σ : Type) (mkG : NewRecord → Option γ) (eqG : γ → γ → Bool)
       (zeroS : σ) (addS : σ → NewRecord → Option σ)
       (agg : Aggregator1M γ σ) (r : NewRecord) (g2 : γ) (s : σ),
       mkG r = some g2 → eqG agg.g g2 = false → addS zeroS r = some s →
       agg1Record mkG eqG zeroS addS agg r
         = some ⟨(agg.numDistinct + 1) % 4294967296, agg.offset, g2, s⟩) ∧
    (∀ (γ σ1 σ2 : Type) (mkG : NewRecord → Option γ) (eqG : γ → γ → Bool)
       (zeroS1 : σ1) (addS1 : σ1 → NewRecord → Option σ1)
       (zeroS2 : σ2) (addS2 : σ2 → NewRecord → Option σ2)
       (agg : Aggregator2M γ σ1 σ2) (r : NewRecord) (g2 : γ) (s1 : σ1) (s2 : σ2),
       mkG r = some g2 → eqG agg.g g2 = false →
       addS1 zeroS1 r = some s1 → addS2 zeroS2 r = some s2 →
       agg2Record mkG eqG zeroS1 addS1 zeroS2 addS2 agg r
         = some ⟨(agg.numDistinct + 1) % 4294967296, agg.offset, g2, s1, s2⟩) := by
  refine ⟨?_, ?_, ?_, ?_⟩
  · intro γ σ isD mkG eqG agg r h
    simp [agg1GroupingAttrsEqualRec, h]
  · intro γ σ1 σ2 isD mkG eqG agg r h
    simp [agg2GroupingAttrsEqualRec, h]
  · intro γ σ mkG eqG zeroS addS agg r g2 s h1 h2 h3
    simp [agg1Record, h1, h2, h3]
  · intro γ σ1 σ2 mkG eqG zeroS1 addS1 zeroS2 addS2 agg r g2 s1 s2 h1 h2 h3 h4
    simp [agg2Record, h1, h2, h3, h4]

/-- Witness for `aggregate_dummy_no_special_case` at the concrete dummy
record and aggregator of the counterexample. -/
theorem aggregate_dummy_no_special_case_witness :
    agg1GroupingAttrsEqualRec (fun t => t == DUMMY_INT_TYPE) (mkGroupBy 1)
        gEquals cAgg5 cRowDummy = some false ∧
    agg1Record (mkGroupBy 1) gEquals 0 (sumAddU32 2) cAgg5 cRowDummy
      = some ⟨(cAgg5.numDistinct + 1) % 4294967296, cAgg5.offset,
              ⟨cRowDummy, some ⟨DUMMY_INT_TYPE, [5, 0, 0, 0]⟩⟩, 7⟩ :=
  ⟨aggregate_dummy_no_special_case.1 GroupByState ℕ (fun t => t == DUMMY_INT_TYPE)
      (mkGroupBy 1) gEquals cAgg5 cRowDummy (by decide),
   aggregate_dummy_no_special_case.2.2.1 GroupByState ℕ (mkGroupBy 1) gEquals
      0 (sumAddU32 2) cAgg5 cRowDummy
      ⟨cRowDummy, some ⟨DUMMY_INT_TYPE, [5, 0, 0, 0]⟩⟩ 7
      (by decide) (by decide) (by decide)⟩

/-- C6: The `aggregate(record)` state machine, for `Aggregator1` and
`Aggregator2` over a single-column `GroupBy`: when the aggregator is empty
(`g` tracks no group) or the record's grouping attribute differs byte-wise
from the current group, the call increments `num_distinct` by one, replaces
the group with the record's group, and zeroes every aggregate state before
adding the record into each; otherwise it leaves `num_distinct` and the group
unchanged and only adds the record into each aggregate state. -/
theorem aggregate_record_state_machine :
    (∀ (σ : Type) (zeroS : σ) (addS : σ → NewRecord → Option σ) (col : ℕ)
       (agg : Aggregator1M GroupByState σ) (r : NewRecord) (a : Attr),
       recNumCols r ≠ 0 → getAttr r col = some a →
       agg.numDistinct + 1 < 4294967296 →
       ((agg.g.attr = none ∨ ∃ b, agg.g.attr = some b ∧ attrsEqual b a = false) →
          agg1Record (mkGroupBy col) gEquals zeroS addS agg r
            = (addS zeroS r).map fun s =>
                ⟨agg.numDistinct + 1, agg.offset, ⟨r, some a⟩, s⟩) ∧
       ((∃ b, agg.g.attr = some b ∧ attrsEqual b a = true) →
          agg1Record (mkGroupBy col) gEquals zeroS addS agg r
            = (addS agg.a1 r).map fun s => { agg with a1 := s })) ∧
    (∀ (σ1 σ2 : Type) (zeroS1 : σ1) (addS1 : σ1 → NewRecord → Option σ1)
       (zeroS2 : σ2) (addS2 : σ2 → NewRecord → Option σ2) (col : ℕ)
       (agg : Aggregator2M GroupByState σ1 σ2) (r : NewRecord) (a : Attr),
       recNumCols r ≠ 0 → getAttr r col = some a →
       agg.numDistinct + 1 < 4294967296 →
       ((agg.g.attr = none ∨ ∃ b, agg.g.attr = some b ∧ attrsEqual b a = false) →
          agg2Record (mkGroupBy col) gEquals zeroS1 addS1 zeroS2 addS2 agg r
            = ((addS1 zeroS1 r).bind fun s1 => (addS2 zeroS2 r).map fun s2 =>
                ⟨agg.numDistinct + 1, agg.offset, ⟨r, some a⟩, s1, s2⟩)) ∧
       ((∃ b, agg.g.attr = some b ∧ attrsEqual b a = true) →
          agg2Record (mkGroupBy col) gEquals zeroS1 addS1 zeroS2 addS2 agg r
            = ((addS1 agg.a1 r).bind fun s1 => (addS2 agg.a2 r).map fun s2 =>
                { agg with a1 := s1, a2 := s2 }))) := by
  have hmk : ∀ (col : ℕ) (r : NewRecord) (a : Attr), recNumCols r ≠ 0 →
      getAttr r col = some a → mkGroupBy col r = some ⟨r, some a⟩ := by
    intro col r a h1 h2
    simp [mkGroupBy, h1, h2]
  constructor
  · intro σ zeroS addS col agg r a h1 h2 hnd
    constructor
    · intro hne
      have heq : gEquals agg.g ⟨r, some a⟩ = false := by
        rcases hne with h | ⟨b, hb, hf⟩
        · simp [gEquals, h]
        · simp [gEquals, hb, hf]
      have : (agg.numDistinct + 1) % 4294967296 = agg.numDistinct + 1 :=
        Nat.mod_eq_of_lt hnd
      simp only [agg1Record, hmk col r a h1 h2, Option.bind_eq_bind,
        Option.some_bind, heq, Bool.false_eq_true, if_false, this]
      cases addS zeroS r <;> rfl
    · intro ⟨b, hb, ht⟩
      have heq : gEquals agg.g ⟨r, some a⟩ = true := by
        simp [gEquals, hb, ht]
      simp only [agg1Record, hmk col r a h1 h2, Option.bind_eq_bind,
        Option.some_bind, heq, if_true]
      cases addS agg.a1 r <;> rfl
  · intro σ1 σ2 zeroS1 addS1 zeroS2 addS2 col agg r a h1 h2 hnd
    constructor
    · intro hne
      have heq : gEquals agg.g ⟨r, some a⟩ = false := by
        rcases hne with h | ⟨b, hb, hf⟩
        · simp [gEquals, h]
        · simp [gEquals, hb, hf]
      have : (agg.numDistinct + 1) % 4294967296 = agg.numDistinct + 1 :=
        Nat.mod_eq_of_lt hnd
      simp only [agg2Record, hmk col r a h1 h2, Option.bind_eq_bind,
        Option.some_bind, heq, Bool.false_eq_true, if_false, this]
      cases addS1 zeroS1 r with
      | none => rfl
      | some s1 =>
        simp only [Option.some_bind]
        cases addS2 zeroS2 r <;> rfl
    · intro ⟨b, hb, ht⟩
      have heq : gEquals agg.g ⟨r, some a⟩ = true := by
        simp [gEquals, hb, ht]
      simp only [agg2Record, hmk col r a h1 h2, Option.bind_eq_bind,
        Option.some_bind, heq, if_true]
      cases addS1 agg.a1 r with
      | none => rfl
      | some s1 =>
        simp only [Option.some_bind]
        cases addS2 agg.a2 r <;> rfl

/-- Witness for `aggregate_record_state_machine`: a fresh aggregator opens
its first group on `cRowG` and sums its value column. -/
theorem aggregate_record_state_machine_witness :
    agg1Record (mkGroupBy 1) gEquals 0 (sumAddU32 2) cAggEmpty cRowG
      = some ⟨1, 0, ⟨cRowG, some ⟨INT_TYPE, [5, 0, 0, 0]⟩⟩, 3⟩ :=
  ((aggregate_record_state_machine.1 ℕ 0 (sumAddU32 2) 1 cAggEmpty cRowG
      ⟨INT_TYPE, [5, 0, 0, 0]⟩ (by decide) (by decide) (by decide)).1
    (Or.inl rfl)).trans (by decide)

/-- A `StreamRowWriter` run: set opcode and partition, write the rows, close. -/
def swRunRows (sc : StreamCipherModel) (tparse : ℕ → ℕ → ℕ)
    (RUBC MAXB op part : ℕ) (rows : List NewRecord) : SWState :=
  swClose sc tparse RUBC
    (rows.foldl (swWrite sc tparse RUBC MAXB) (swSetPart (swSetOpcode swInit op) part))

/-- Invariant of the stream writer: the cipher is always pinned 12 bytes past
the current block start, so every finished block records its ciphertext start
12 bytes after its header start. -/
theorem swRun_cipher_offset (sc : StreamCipherModel) (tparse : ℕ → ℕ → ℕ)
    (RUBC MAXB : ℕ) :
    ∀ (rows : List NewRecord) (st : SWState),
      st.cipherStart = st.bufPos + 12 →
      (∀ b ∈ st.blocks, b.ctStart = b.headerStart + 12) →
      (rows.foldl (swWrite sc tparse RUBC MAXB) st).cipherStart
        = (rows.foldl (swWrite sc tparse RUBC MAXB) st).bufPos + 12 ∧
      ∀ b ∈ (rows.foldl (swWrite sc tparse RUBC MAXB) st).blocks,
        b.ctStart = b.headerStart + 12 := by
  have hfin : ∀ st : SWState, st.cipherStart = st.bufPos + 12 →
      (∀ b ∈ st.blocks, b.ctStart = b.headerStart + 12) →
      (swFinishBlock sc tparse RUBC st).cipherStart
        = (swFinishBlock sc tparse RUBC st).bufPos + 12 ∧
      ∀ b ∈ (swFinishBlock sc tparse RUBC st).blocks,
        b.ctStart = b.headerStart + 12 := by
    intro st h1 h2
    refine ⟨rfl, ?_⟩
    intro b hb
    simp only [swFinishBlock, List.mem_append, List.mem_singleton] at hb
    rcases hb with hb | hb
    · exact h2 b hb
    · rw [hb, h1]
  intro rows
  induction rows with
  | nil => intro st h1 h2; exact ⟨h1, h2⟩
  | cons r rs ih =>
    intro st h1 h2
    simp only [List.foldl_cons]
    by_cases hl : st.blockLen > MAXB
    · have hf := hfin st h1 h2
      exact ih _ (by simp only [swWrite, if_pos hl]; exact hf.1)
        (by simp only [swWrite, if_pos hl]; exact hf.2)
    · exact ih _ (by simp only [swWrite, if_neg hl]; exact h1)
        (by simp only [swWrite, if_neg hl]; exact h2)

/-- C2: The `StreamRowWriter` block layout.  The header fields are as
claimed — `(bytes_written, num_rows, ROW_UPPER_BOUND, task id from the
opcode/partition parser)` — but the ciphertext does **not** begin 16 bytes
after the start of the block header: the cipher is pinned 12 bytes past the
block start (constructor and `finish_block` reset), so the ciphertext region
begins inside the 16-byte header and its first 4 bytes are overwritten when
`finish_block` later writes the `task_id` header field.  Shown in general
(every emitted block has its ciphertext start exactly 12 bytes past its
header start) and on a concrete one-row run. -/
theorem streamwriter_ciphertext_overlaps_header :
    (∀ (sc : StreamCipherModel) (tparse : ℕ → ℕ → ℕ) (RUBC MAXB op part : ℕ)
       (rows : List NewRecord),
       ∀ b ∈ (swRunRows sc tparse RUBC MAXB op part rows).blocks,
         b.ctStart = b.headerStart + 12 ∧ b.headerStart + 12 < b.headerStart + 16) ∧
    swRunC2.blocks = [⟨0, 17, 1, 32, sampleTaskIdParse 3 5, 12⟩] ∧
    (12 : ℕ) ≠ 0 + 16 := by
  refine ⟨?_, by decide, by decide⟩
  intro sc tparse RUBC MAXB op part rows b hb
  have h0 : (swSetPart (swSetOpcode swInit op) part).cipherStart
      = (swSetPart (swSetOpcode swInit op) part).bufPos + 12 := rfl
  have h2 : ∀ b ∈ (swSetPart (swSetOpcode swInit op) part).blocks,
      b.ctStart = b.headerStart + 12 := by
    intro b hb
    simp [swSetPart, swSetOpcode, swInit] at hb
  have hinv := swRun_cipher_offset sc tparse RUBC MAXB rows
    (swSetPart (swSetOpcode swInit op) part) h0 h2
  have hfin : ∀ bb ∈ (swRunRows sc tparse RUBC MAXB op part rows).blocks,
      bb.ctStart = bb.headerStart + 12 := by
    intro bb hbb
    simp only [swRunRows, swClose, swFinishBlock, List.mem_append,
      List.mem_singleton] at hbb
    rcases hbb with hbb | hbb
    · exact hinv.2 bb hbb
    · rw [hbb, hinv.1]
  exact ⟨hfin b hb, by omega⟩

/-- Witness for `streamwriter_ciphertext_overlaps_header`: the single block
of the concrete run starts its ciphertext 12 bytes past the header start,
inside the 16-byte header. -/
theorem streamwriter_ciphertext_overlaps_header_witness :
    (⟨0, 17, 1, 32, sampleTaskIdParse 3 5, 12⟩ : SWBlock).ctStart
      = (⟨0, 17, 1, 32, sampleTaskIdParse 3 5, 12⟩ : SWBlock).headerStart + 12 ∧
    (⟨0, 17, 1, 32, sampleTaskIdParse 3 5, 12⟩ : SWBlock).headerStart + 12
      < (⟨0, 17, 1, 32, sampleTaskIdParse 3 5, 12⟩ : SWBlock).headerStart + 16 :=
  streamwriter_ciphertext_overlaps_header.1 sampleStream sampleTaskIdParse
    32 1000 3 5 [cRow1] ⟨0, 17, 1, 32, sampleTaskIdParse 3 5, 12⟩ (by decide)

/-- The header a `RowWriter` block should carry, from its recorded fields. -/
def rwHeaderOf (c : BlockCipher) (b : RWBlock) : List ℕ :=
  u32le (c.encSize b.paddedLen) ++ u32le b.numRows ++ u32le b.rub ++ u32le b.taskId

/-- The property every block emitted by `RowWriter` satisfies: its header is
the four `uint32_t` fields, and its ciphertext is `encrypt_with_aad` of its
(padded-length) plaintext with exactly the header as associated data. -/
def RWBlockOk (c : BlockCipher) (b : RWBlock) : Prop :=
  b.header = rwHeaderOf c b ∧ b.ct = c.encryptWithAad b.header b.pt ∧
  b.pt.length = b.paddedLen

theorem rwPlain_length (st : RWState) : (rwPlain st).length = st.blockPaddedLen := by
  simp only [rwPlain, List.length_append, List.length_take, List.length_replicate]
  omega

theorem rwFinishBlock_ok (c : BlockCipher) (st : RWState)
    (h : ∀ b ∈ st.blocks, RWBlockOk c b) :
    ∀ b ∈ (rwFinishBlock c st).blocks, RWBlockOk c b := by
  intro b hb
  simp only [rwFinishBlock, List.mem_append, List.mem_singleton] at hb
  rcases hb with hb | hb
  · exact h b hb
  · subst hb
    exact ⟨rfl, rfl, rwPlain_length st⟩

theorem rwWrite_ok (c : BlockCipher) (rubOf : NewRecord → ℕ) (RUBC MAXB : ℕ)
    (st st' : RWState) (r : NewRecord)
    (hw : rwWrite c rubOf RUBC MAXB st r = some st')
    (h : ∀ b ∈ st.blocks, RWBlockOk c b) :
    ∀ b ∈ st'.blocks, RWBlockOk c b := by
  simp only [rwWrite] at hw
  by_cases hf : st.blockPaddedLen + RUBC > MAXB
  · simp only [if_pos hf] at hw
    have hfin := rwFinishBlock_ok c st h
    by_cases hc : (recordWriteBytes r).length
        ≤ if (rwFinishBlock c st).rub = 0 then RUBC else (rwFinishBlock c st).rub
    · simp only [if_pos hc, Option.some.injEq] at hw
      subst hw
      exact hfin
    · simp only [if_neg hc] at hw
      exact absurd hw (by simp)
  · simp only [if_neg hf] at hw
    by_cases hc : (recordWriteBytes r).length ≤ if st.rub = 0 then RUBC else st.rub
    · simp only [if_pos hc, Option.some.injEq] at hw
      subst hw
      exact h
    · simp only [if_neg hc] at hw
      exact absurd hw (by simp)

theorem rwFold_ok (c : BlockCipher) (rubOf : NewRecord → ℕ) (RUBC MAXB : ℕ) :
    ∀ (rows : List NewRecord) (st st' : RWState),
      rows.foldlM (rwWrite c rubOf RUBC MAXB) st = some st' →
      (∀ b ∈ st.blocks, RWBlockOk c b) →
      ∀ b ∈ st'.blocks, RWBlockOk c b := by
  intro rows
  induction rows with
  | nil =>
    intro st st' hw h
    simp only [List.foldlM_nil, Option.pure_def, Option.some.injEq] at hw
    subst hw
    exact h
  | cons r rs ih =>
    intro st st' hw h
    simp only [List.foldlM_cons, Option.bind_eq_bind] at hw
    cases h1 : rwWrite c rubOf RUBC MAXB st r with
    | none =>
      rw [h1] at hw
      simp only [Option.none_bind] at hw
      cases hw
    | some st1 =>
      rw [h1] at hw
      simp only [Option.some_bind] at hw
      exact ih st1 st' hw (rwWrite_ok c rubOf RUBC MAXB st st1 r h1 h)

/-- C4: Every block emitted by `RowWriter` (through any sequence of
writes and `close()`) consists of the 16-byte header
`(enc_size(block_padded_len), num_rows, row_upper_bound, task_id)` followed
by `encrypt_with_aad` of the padded plaintext with exactly those 16 header
bytes as associated data; consequently, under the cipher contract, the block
decrypts with its own header but any 16-byte header differing from the
original makes decryption fail. -/
theorem rowwriter_header_is_aad (c : BlockCipher) (rubOf : NewRecord → ℕ)
    (RUBC MAXB rub0 taskId : ℕ) (rows : List NewRecord) (st : RWState)
    (hrun : runRowWriter c rubOf RUBC MAXB rub0 taskId rows = some st) :
    ∀ b ∈ st.blocks,
      b.header = u32le (c.encSize b.paddedLen) ++ u32le b.numRows ++
        u32le b.rub ++ u32le b.taskId ∧
      b.ct = c.encryptWithAad b.header b.pt ∧
      b.pt.length = b.paddedLen ∧
      c.decryptWithAad b.header b.ct = some b.pt ∧
      ∀ h', h'.length = 16 → h' ≠ b.header → c.decryptWithAad h' b.ct = none := by
  intro b hb
  simp only [runRowWriter, Option.bind_eq_bind] at hrun
  cases h1 : rows.foldlM (rwWrite c rubOf RUBC MAXB) (rwInit rub0 taskId) with
  | none => rw [h1] at hrun; exact absurd hrun (by simp)
  | some st0 =>
    rw [h1] at hrun
    simp only [Option.some_bind, Option.some.injEq] at hrun
    have hok : ∀ bb ∈ st.blocks, RWBlockOk c bb := by
      rw [← hrun]
      refine rwFinishBlock_ok c st0 ?_
      exact rwFold_ok c rubOf RUBC MAXB rows (rwInit rub0 taskId) st0 h1
        (by intro bb hbb; simp [rwInit] at hbb)
    obtain ⟨hh, hct, hpt⟩ := hok b hb
    have hle : b.header.length = 16 := by
      rw [hh]
      simp [rwHeaderOf, u32le_length]
    refine ⟨hh, hct, hpt, ?_, ?_⟩
    · rw [hct]
      exact c.aad_roundtrip b.header b.pt
    · intro h' hlen hne
      rw [hct]
      exact c.aad_tamper b.header h' b.pt (by omega) hne

/-- Witness for `rowwriter_header_is_aad`: the concrete one-row run emits one
block; tampering its header's `num_rows` field (1 → 2) makes decryption with
associated data fail. -/
theorem rowwriter_header_is_aad_witness :
    sampleCipher.decryptWithAad (u32le 32 ++ u32le 2 ++ u32le 16 ++ u32le 7)
      ((c4St.blocks.getD 0 ⟨[], [], [], 0, 0, 0, 0⟩).ct) = none :=
  (rowwriter_header_is_aad sampleCipher (fun _ => 16) 32 1000 16 7 [cRow1]
      c4St (by decide) (c4St.blocks.getD 0 ⟨[], [], [], 0, 0, 0, 0⟩)
      (by decide)).2.2.2.2
    (u32le 32 ++ u32le 2 ++ u32le 16 ++ u32le 7) (by decide) (by decide)

/-- C3: What the bulk `RowReader` actually does per block: it consumes
only the three `uint32_t` fields `enc_size`, `num_rows`, `row_upper_bound`
(12 bytes) and then hands the next `enc_size` bytes — beginning at the
writer's `task_id` field — straight to `decrypt`; the `task_id` is never read
as a header field, and the verify sink is never updated (the reader's
`add_parent` is dead code): a reader state constructed by `rrInit` has an
empty verify list and every sequence of reads preserves it. -/
theorem rowreader_consumes_12_byte_header :
    (∀ (c : BlockCipher) (e n u : ℕ) (tail : List ℕ),
       e < 4294967296 → n < 4294967296 → 0 < n → e ≤ tail.length →
       rrBlockLoop c (u32le e ++ u32le n ++ u32le u ++ tail)
         = (c.decrypt (tail.take e)).map fun pt => (pt, n, tail.drop e)) ∧
    (∀ (c : BlockCipher) (buf : List ℕ) (st : RRState),
       rrInit c buf = some st → st.verify = []) ∧
    (∀ (c : BlockCipher) (m : ℕ) (st : RRState) (out : List NewRecord × RRState),
       rrReadN c m st = some out → out.2.verify = st.verify) := by
  refine ⟨?_, ?_, ?_⟩
  · intro c e n u tail he hn hn0 hlen
    have hbl : (u32le e ++ u32le n ++ u32le u ++ tail).length = tail.length + 12 := by
      simp [u32le_length]
      omega
    rw [rrBlockLoop, hbl]
    simp only [rrBlockLoopF, List.append_assoc, readU32_u32le,
      Nat.mod_eq_of_lt he, Nat.mod_eq_of_lt hn]
    rw [if_pos hlen]
    cases hd : c.decrypt (tail.take e) with
    | none => simp
    | some pt => simp [hn0]
  · intro c buf st h
    simp only [rrInit] at h
    cases hb : rrBlockLoop c buf with
    | none => rw [hb] at h; cases h
    | some pr =>
      rw [hb] at h
      simp only [Option.map_some', Option.some.injEq] at h
      rw [← h]
  · intro c m
    induction m with
    | zero =>
      intro st out h
      simp only [rrReadN, Option.some.injEq] at h
      rw [← h]
    | succ k ih =>
      intro st out h
      simp only [rrReadN, Option.bind_eq_bind] at h
      cases h1 : rrRead c st with
      | none => rw [h1] at h; cases h
      | some q =>
        rw [h1] at h
        simp only [Option.some_bind] at h
        cases h2 : rrReadN c k q.2 with
        | none =>
          rw [h2] at h
          simp at h
        | some out2 =>
          rw [h2] at h
          have hv1 : q.2.verify = st.verify := by
            obtain ⟨r, st1⟩ := q
            simp only [rrRead, Option.bind_eq_bind] at h1
            by_cases hc : st.blockRowsRead ≥ st.blockNumRows
            · rw [if_pos hc] at h1
              cases hb : rrBlockLoop c st.buf with
              | none => rw [hb] at h1; cases h1
              | some pr =>
                rw [hb] at h1
                simp only [Option.map_some', Option.some_bind] at h1
                cases hp : recordParse pr.1 with
                | none => rw [hp] at h1; cases h1
                | some q2 =>
                  rw [hp] at h1
                  simp only [Option.some_bind, Option.some.injEq,
                    Prod.mk.injEq] at h1
                  rw [← h1.2]
            · rw [if_neg hc] at h1
              simp only [Option.some_bind] at h1
              cases hp : recordParse st.blockPlain with
              | none => rw [hp] at h1; cases h1
              | some q2 =>
                rw [hp] at h1
                simp only [Option.some_bind, Option.some.injEq,
                  Prod.mk.injEq] at h1
                rw [← h1.2]
          have := ih q.2 out2 h2
          obtain ⟨rs, st2⟩ := out2
          simp only [Option.some_bind, Option.some.injEq] at h
          rw [← h]
          simp only at this ⊢
          rw [this, hv1]

/-- Witness for `rowreader_consumes_12_byte_header`: on a block whose three
leading fields announce a 32-byte ciphertext and one row, the reader decrypts
the 32 bytes immediately following the 12th byte, and a successfully
constructed reader state carries an empty verify list. -/
theorem rowreader_consumes_12_byte_header_witness :
    rrBlockLoop sampleCipher
        (u32le 32 ++ u32le 1 ++ u32le 16 ++ List.replicate 32 0)
      = (sampleCipher.decrypt ((List.replicate 32 0).take 32)).map
          (fun pt => (pt, 1, (List.replicate 32 0).drop 32)) ∧
    (RRState.mk [] [] 1 0 []).verify = [] :=
  ⟨rowreader_consumes_12_byte_header.1 sampleCipher 32 1 16
      (List.replicate 32 0) (by decide) (by decide) (by decide) (by decide),
   rowreader_consumes_12_byte_header.2.1 sampleCipher
      (u32le 16 ++ u32le 1 ++ u32le 0 ++ List.replicate 16 200)
      (RRState.mk [] [] 1 0 []) (by decide)⟩

/-- C1: The writer–reader round trip fails on the concrete model cipher:
`RowWriter` emits a 16-byte header with the ciphertext at offset 16, but
`RowReader` consumes only 12 header bytes and decrypts from offset 12 (the
`task_id` field), so reading back a single written record errors out instead
of returning the record. -/
theorem rowwriter_rowreader_roundtrip_fails :
    rowRecords sampleCipher (fun _ => 16) 32 1000 16 7 [cRow1] = none ∧
    rowRecords sampleCipher (fun _ => 16) 32 1000 16 7 [cRow1] ≠ some [cRow1] := by
  exact ⟨by decide, by decide⟩

/-- C8 counterexample: The `StreamRowReader` does not skip zero-row
blocks: on a buffer holding a one-row block (`cRow1`), a zero-row block, and
a one-row block (`cRow2`), the first read returns `cRow1` but the second read
advances exactly one block, lands in the zero-row block, and fails — instead
of skipping to `cRow2`. -/
theorem streamreader_zero_row_skip_counterexample :
    srRecords sampleStream 1 bufWithZeroRowBlock = some [cRow1] ∧
    srRecords sampleStream 2 bufWithZeroRowBlock = none ∧
    srRecords sampleStream 2 bufWithZeroRowBlock ≠ some [cRow1, cRow2] := by
  exact ⟨by decide, by decide, by decide⟩

/-- C8 amended: The bulk `RowReader` skips blocks whose `num_rows`
field is zero: its block loop passes over a zero-row block (per its own
12-byte framing) and continues on the remaining buffer, so any number of
consecutive zero-row blocks is skipped.  The `StreamRowReader`, by contrast,
advances exactly one block when the current block is exhausted: on a buffer
starting with a zero-row block, `read_encrypted_block` yields a state
positioned inside the zero-row block (`num_rows = 0`, its plaintext loaded)
rather than a state in the next non-empty block. -/
theorem zero_row_block_skipping :
    (∀ (c : BlockCipher) (e u : ℕ) (ct pt rest : List ℕ),
       e < 4294967296 → ct.length = e → c.decrypt ct = some pt →
       rrBlockLoop c (u32le e ++ u32le 0 ++ u32le u ++ (ct ++ rest))
         = rrBlockLoop c rest) ∧
    (∀ (sc : StreamCipherModel) (e u t : ℕ) (ct pt rest : List ℕ) (st : SRState),
       e < 4294967296 → t < 4294967296 → ct.length = e → sc.sdecrypt ct = some pt →
       st.buf = u32le e ++ u32le 0 ++ u32le u ++ u32le t ++ (ct ++ rest) →
       srReadBlock sc st
         = some ⟨rest, pt, 0, 0, st.verify ++ [t], st.curBlockNum + 1⟩) := by
  constructor
  · intro c e u ct pt rest he hct hd
    have hbl : (u32le e ++ u32le 0 ++ u32le u ++ (ct ++ rest)).length
        = rest.length + e + 12 := by
      simp [u32le_length, hct]
      omega
    rw [rrBlockLoop, hbl]
    simp only [rrBlockLoopF, List.append_assoc, readU32_u32le,
      Nat.mod_eq_of_lt he, Nat.zero_mod]
    rw [if_pos (by rw [List.length_append, hct]; omega)]
    rw [List.take_left' hct, List.drop_left' hct, hd]
    simp only [gt_iff_lt, lt_self_iff_false, if_false]
    rw [rrBlockLoop]
    exact rrBlockLoopF_fuel c (rest.length + e + 12) (rest.length + 1) rest
      (by omega) (by omega)
  · intro sc e u t ct pt rest st he ht hct hd hbuf
    simp only [srReadBlock, hbuf, List.append_assoc, Option.bind_eq_bind,
      readU32_u32le, Nat.mod_eq_of_lt he, Nat.mod_eq_of_lt ht, Option.some_bind]
    rw [if_pos (by rw [List.length_append, hct]; omega)]
    rw [List.take_left' hct, List.drop_left' hct, hd]

/-- Witness for `zero_row_block_skipping` at concrete zero-row blocks. -/
theorem zero_row_block_skipping_witness :
    rrBlockLoop sampleCipher
        (u32le 16 ++ u32le 0 ++ u32le 32 ++ (List.replicate 16 200 ++ []))
      = rrBlockLoop sampleCipher [] ∧
    srReadBlock sampleStream
        ⟨u32le 4 ++ u32le 0 ++ u32le 32 ++ u32le 6 ++ ([9, 9, 9, 9] ++ []), [], 0, 0, [], 0⟩
      = some ⟨[], [], 0, 0, [] ++ [6], 0 + 1⟩ :=
  ⟨zero_row_block_skipping.1 sampleCipher 16 32 (List.replicate 16 200) [] []
      (by decide) (by decide) (by decide),
   zero_row_block_skipping.2 sampleStream 4 32 6 [9, 9, 9, 9] [] []
      ⟨u32le 4 ++ u32le 0 ++ u32le 32 ++ u32le 6 ++ ([9, 9, 9, 9] ++ []), [], 0, 0, [], 0⟩
      (by decide) (by decide) (by decide) (by decide) (by decide)⟩

end OpaqueTuple
